import Mathlib

/-!
Verification of `cache_guess` (dmcache-recovery-experiments).

The Rust program is shallowly embedded here.  Devices, files and mmap
regions are byte lists (`List Nat`); Rust slice indexing, which panics when
the range exceeds the backing length, is modelled by `Option`-returning
operations, so `none` stands for an aborted run (panic or propagated
error).  Machine integers are `Nat`; all the arithmetic of the source
(`usize`) stays well below 2^64 for the inputs considered, so plain `Nat`
arithmetic is faithful.  The SHA-1 digest function is a parameter
`hash : List Nat → List Nat`; nothing in the program inspects digest
internals, only equality of digests, so every theorem is stated for an
arbitrary `hash` (constrained, where needed, to produce `HASH_BYTES`-long
output, as SHA-1 does).
-/

namespace CacheGuess

/-- `const HASH_BYTES: usize = 20;` -/
def HASH_BYTES : Nat := 20

/-- `const BLOCK_SIZE: usize = 8 * 1024;` -/
def BLOCK_SIZE : Nat := 8 * 1024

/-- `MappedFile::slice(offset, len)`: `&self.mmap[offset..offset + len]`.
Rust range indexing panics when `offset + len` exceeds the mapped length;
the panic is modelled as `none`. -/
def slice (m : List Nat) (offset len : Nat) : Option (List Nat) :=
  if offset + len ≤ m.length then some ((m.drop offset).take len) else none

/-- `self.slice_mut(offset, len).copy_from_slice(&data)`: panics (`none`)
when the destination range is out of bounds or when `data` does not have
exactly `len` bytes (the `copy_from_slice` contract). -/
def copyToSlice (m : List Nat) (offset len : Nat) (data : List Nat) :
    Option (List Nat) :=
  if data.length = len ∧ offset + len ≤ m.length then
    some (m.take offset ++ data ++ m.drop (offset + len))
  else none

/-- `(0..stop).step_by(step)`: for `step > 0` this Rust iterator yields
`k * step` for `k < ceil(stop / step)`. -/
def stepBy (stop step : Nat) : List Nat :=
  List.range' 0 ((stop + step - 1) / step) step

/-- `let block_count = (device_size + BLOCK_SIZE - 1) / BLOCK_SIZE;` -/
def blockCount (device_size : Nat) : Nat :=
  (device_size + BLOCK_SIZE - 1) / BLOCK_SIZE

/-- `let index_block_count = (block_count + BLOCK_SIZE - 1) / BLOCK_SIZE;`
followed by `MappedFile::create(index_path, index_block_count * BLOCK_SIZE)`:
the number of bytes `collect` allocates for the index file. -/
def indexAllocSize (device_size : Nat) : Nat :=
  ((blockCount device_size + BLOCK_SIZE - 1) / BLOCK_SIZE) * BLOCK_SIZE

/-- One iteration of the `for offset in (0..device_size).step_by(BLOCK_SIZE)`
loop of `collect`: state is `(index_file, index_block, index_entry)`. -/
def collectStep (hash : List Nat → List Nat) (device : List Nat)
    (st : List Nat × Nat × Nat) (offset : Nat) :
    Option (List Nat × Nat × Nat) := do
  let (index_file, index_block, index_entry) := st
  let block ← slice device offset BLOCK_SIZE
  let digest := hash block
  let index_offset := index_block * BLOCK_SIZE + index_entry * HASH_BYTES
  let index_file ← copyToSlice index_file index_offset HASH_BYTES digest
  if index_entry + 1 ≥ BLOCK_SIZE then
    some (index_file, index_block + 1, 0)
  else
    some (index_file, index_block, index_entry + 1)

/-- The `collect` block loop, recursing over the list of block offsets. -/
def collectLoop (hash : List Nat → List Nat) (device : List Nat) :
    List Nat → List Nat × Nat × Nat → Option (List Nat)
  | [], (index_file, _, _) => some index_file
  | offset :: rest, st =>
    match collectStep hash device st offset with
    | none => none
    | some st' => collectLoop hash device rest st'

/-- `fn collect(index_path, device_path)`: builds the persisted index file
for `device`, returning the final index file bytes (progress logging and
file opening are peripheral I/O and are not modelled). -/
def collect (hash : List Nat → List Nat) (device : List Nat) :
    Option (List Nat) :=
  collectLoop hash device (stepBy device.length BLOCK_SIZE)
    (List.replicate (indexAllocSize device.length) 0, 0, 0)

/-- Byte offset inside the index file at which `collect` writes the digest
of source block `i`: page `i / BLOCK_SIZE` (8192 entries per page), slot
`i % BLOCK_SIZE`, at `index_block * BLOCK_SIZE + index_entry * HASH_BYTES`. -/
def entryOffset (i : Nat) : Nat :=
  (i / BLOCK_SIZE) * BLOCK_SIZE + (i % BLOCK_SIZE) * HASH_BYTES

/-- Inner loop of the index-loading phase of `find`:
`for entry in (0..BLOCK_SIZE).step_by(HASH_BYTES)` over one page
`block_bytes`, with `digest = &block_bytes[entry..entry + HASH_BYTES]`
(a panicking slice, modelled by `slice`) and
`index.entry(digest).or_insert_with(Vec::new).push(block_offset + entry)`.
The `HashMap<Vec<u8>, Vec<usize>>` is modelled as the list of push events
`(digest, offset)` in program order; per-digest buckets are recovered by
`bucket` below, preserving push order exactly as `Vec::push` does. -/
def loadEntries (block_bytes : List Nat) (block_offset : Nat) :
    List Nat → List (List Nat × Nat) → Option (List (List Nat × Nat))
  | [], acc => some acc
  | e :: rest, acc =>
    match slice block_bytes e HASH_BYTES with
    | none => none
    | some digest =>
      loadEntries block_bytes block_offset rest
        (acc ++ [(digest, block_offset + e)])

/-- Outer loop of the index-loading phase of `find`:
`for block_offset in (0..device_size).step_by(BLOCK_SIZE)` with
`block_bytes = index_file.slice(block_offset, BLOCK_SIZE)`. -/
def loadPages (index_file : List Nat) :
    List Nat → List (List Nat × Nat) → Option (List (List Nat × Nat))
  | [], acc => some acc
  | block_offset :: rest, acc =>
    match slice index_file block_offset BLOCK_SIZE with
    | none => none
    | some block_bytes =>
      match loadEntries block_bytes block_offset
          (stepBy BLOCK_SIZE HASH_BYTES) acc with
      | none => none
      | some acc' => loadPages index_file rest acc'

/-- The index-loading phase of `find` (lines 112-124): reads the whole
index file page by page into the in-memory multimap. -/
def loadIndex (index_file : List Nat) : Option (List (List Nat × Nat)) :=
  loadPages index_file (stepBy index_file.length BLOCK_SIZE) []

/-- `index.get(&digest)`: the bucket of source offsets pushed for `digest`,
in push order (`HashMap::get` on the multimap; an absent key yields the
empty bucket, over which the hit loop is a no-op, exactly as the Rust
`if let Some(..)` skip). -/
def bucket (index : List (List Nat × Nat)) (digest : List Nat) : List Nat :=
  (index.filter (fun e => e.1 == digest)).map (fun e => e.2)

/-- One report line printed by `find`: either a ranked origin line
`"{#?}{cache_block} -> {origin} ({votes/sub_blocks*100}% match)"`
(`secondary = true` iff the `#` prefix is printed) or the
`"#{count} fake matches"` line. -/
inductive ReportLine where
  | origin (secondary : Bool) (cache_block origin_cache_block : Nat)
      (votes sub_blocks : Nat)
  | fakes (count : Nat)
deriving DecidableEq

/-- The percentage printed on a ranked origin line:
`*count as f64 / (cache_block_size / BLOCK_SIZE) as f64 * 100.0`
(exact rational value; the f64 computation is exact for the small counts
involved and is in any case only display formatting). -/
def ReportLine.pct : ReportLine → ℚ
  | .origin _ _ _ votes sub_blocks => (votes : ℚ) / (sub_blocks : ℚ) * 100
  | .fakes _ => 0

/-- `*matches.entry(origin_cache_block).or_insert(0) += 1` on the per-unit
vote map, modelled as an association list in first-insertion order. -/
def bumpVote (m : List (Nat × Nat)) (k : Nat) : List (Nat × Nat) :=
  match m with
  | [] => [(k, 1)]
  | (k', v) :: rest =>
    if k' = k then (k', v + 1) :: rest else (k', v) :: bumpVote rest k

/-- The vote count recorded for origin unit `k` (0 when absent). -/
def voteCount (m : List (Nat × Nat)) (k : Nat) : Nat :=
  match m with
  | [] => 0
  | (k', v) :: rest => if k' = k then v else voteCount rest k

/-- Classification of a single hit (lines 140-150): state is
`(matches, fake_matches)`, `match_offset` one element of the probed
bucket. -/
def classifyHit (cache_block_size fs_block : Nat)
    (st : List (Nat × Nat) × Nat) (match_offset : Nat) :
    List (Nat × Nat) × Nat :=
  let origin_fs_block := match_offset / BLOCK_SIZE
  let origin_cache_block := match_offset / cache_block_size
  let origin_local_fs_block := origin_fs_block % (cache_block_size / BLOCK_SIZE)
  if origin_local_fs_block ≠ fs_block then
    (st.1, st.2 + 1)
  else
    (bumpVote st.1 origin_cache_block, st.2)

/-- `for match_offset in matches_vec { .. }`: fold the hit classifier over
one probed bucket. -/
def processHits (cache_block_size fs_block : Nat)
    (st : List (Nat × Nat) × Nat) (hits : List Nat) :
    List (Nat × Nat) × Nat :=
  hits.foldl (classifyHit cache_block_size fs_block) st

/-- The sub-block loop of one cache unit
(`for fs_block in 0..(cache_block_size / BLOCK_SIZE)`): digest the
sub-block, probe the index, classify every hit. -/
def unitScanLoop (hash : List Nat → List Nat)
    (index : List (List Nat × Nat)) (cache_device : List Nat)
    (cache_block_size cache_block : Nat) :
    List Nat → List (Nat × Nat) × Nat → Option (List (Nat × Nat) × Nat)
  | [], st => some st
  | fs_block :: rest, st => do
    let block ← slice cache_device
      (cache_block * cache_block_size + fs_block * BLOCK_SIZE) BLOCK_SIZE
    let digest := hash block
    unitScanLoop hash index cache_device cache_block_size cache_block rest
      (processHits cache_block_size fs_block st (bucket index digest))

/-- Votes and fake-match count accumulated for one cache unit
(lines 132-152), starting from the empty vote map and zero counter. -/
def unitScan (hash : List Nat → List Nat) (index : List (List Nat × Nat))
    (cache_device : List Nat) (cache_block_size cache_block : Nat) :
    Option (List (Nat × Nat) × Nat) :=
  unitScanLoop hash index cache_device cache_block_size cache_block
    (List.range (cache_block_size / BLOCK_SIZE)) ([], 0)

/-- `match_vec.sort_by_key(|&(_, count)| Reverse(count))`: a stable sort
in non-increasing vote order (`mergeSort` is stable, like Rust sort). -/
def sortVotes (votes : List (Nat × Nat)) : List (Nat × Nat) :=
  votes.mergeSort (fun a b => decide (b.2 ≤ a.2))

/-- The report loop over the sorted vote vector (lines 154-166): the first
line is unprefixed, every later line carries the `#` prefix. -/
def renderVotes (cache_block sub_blocks : Nat) :
    List (Nat × Nat) → Bool → List ReportLine
  | [], _ => []
  | (o, c) :: rest, first =>
    ReportLine.origin (!first) cache_block o c sub_blocks ::
      renderVotes cache_block sub_blocks rest false

/-- Everything printed for one cache unit: the ranked origin lines, then
the fake-match line when `fake_matches != 0` (lines 154-170). -/
def unitLines (cache_block sub_blocks : Nat) (votes : List (Nat × Nat))
    (fake : Nat) : List ReportLine :=
  renderVotes cache_block sub_blocks (sortVotes votes) true ++
    (if fake = 0 then [] else [ReportLine.fakes fake])

/-- `for cache_block in 0..cache_total_blocks`: scan each unit and append
its report lines. -/
def scanUnits (hash : List Nat → List Nat) (index : List (List Nat × Nat))
    (cache_device : List Nat) (cache_block_size : Nat) :
    List Nat → List ReportLine → Option (List ReportLine)
  | [], acc => some acc
  | cache_block :: rest, acc => do
    let (votes, fake) ←
      unitScan hash index cache_device cache_block_size cache_block
    scanUnits hash index cache_device cache_block_size rest
      (acc ++ unitLines cache_block (cache_block_size / BLOCK_SIZE) votes fake)

/-- The scanning phase of `find` (lines 126-171), taking the already-built
in-memory index: `cache_total_blocks = cache_device.size() / cache_block_size`
(a Rust `usize` division, which panics when `cache_block_size = 0`; the
panic is modelled as `none`). -/
def findScan (hash : List Nat → List Nat) (index : List (List Nat × Nat))
    (cache_device : List Nat) (cache_block_size : Nat) :
    Option (List ReportLine) :=
  if cache_block_size = 0 then none
  else
    scanUnits hash index cache_device cache_block_size
      (List.range (cache_device.length / cache_block_size)) []

/-- `fn find(index_path, cache_device_path, cache_block_size)`: loads the
index file, then scans the cache device with
`cache_block_size = 512 * cache_block_size` (the argument is in 512-byte
sectors). -/
def find (hash : List Nat → List Nat) (index_file cache_device : List Nat)
    (cache_block_size : Nat) : Option (List ReportLine) :=
  match loadIndex index_file with
  | none => none
  | some index => findScan hash index cache_device (512 * cache_block_size)

/-- Hit pairs `(fs_block, match_offset)` delivered by the Digest Index for
one cache unit: for each sub-block position, every source offset in the
bucket of that sub-block's digest, in probe order.  This is the notion of
"hits" that claim C10 quantifies over; it reads the same slices as
`unitScanLoop`, so it is defined on exactly the same inputs. -/
def unitHitsLoop (hash : List Nat → List Nat)
    (index : List (List Nat × Nat)) (cache_device : List Nat)
    (cache_block_size cache_block : Nat) :
    List Nat → Option (List (Nat × Nat))
  | [] => some []
  | fs_block :: rest => do
    let block ← slice cache_device
      (cache_block * cache_block_size + fs_block * BLOCK_SIZE) BLOCK_SIZE
    let digest := hash block
    let tail ← unitHitsLoop hash index cache_device cache_block_size
      cache_block rest
    some ((bucket index digest).map (fun off => (fs_block, off)) ++ tail)

/-- All hit pairs for one cache unit. -/
def unitHits (hash : List Nat → List Nat) (index : List (List Nat × Nat))
    (cache_device : List Nat) (cache_block_size cache_block : Nat) :
    Option (List (Nat × Nat)) :=
  unitHitsLoop hash index cache_device cache_block_size cache_block
    (List.range (cache_block_size / BLOCK_SIZE))

/-- Sum of all vote counts in a vote map. -/
def totalVotes (m : List (Nat × Nat)) : Nat :=
  (m.map (fun e => e.2)).sum

section Lemmas

lemma length_copyToSlice {m data res : List Nat} {offset len : Nat}
    (h : copyToSlice m offset len data = some res) :
    res.length = m.length := by
  unfold copyToSlice at h
  split at h
  · rename_i hcond
    obtain ⟨hdata, hle⟩ := hcond
    cases h
    simp [List.length_take, List.length_drop, hdata]
    omega
  · exact absurd h (by simp)

lemma slice_eq_some {m : List Nat} {offset len : Nat}
    (h : offset + len ≤ m.length) :
    slice m offset len = some ((m.drop offset).take len) := by
  simp [slice, h]

lemma length_slice {m res : List Nat} {offset len : Nat}
    (h : slice m offset len = some res) : res.length = len := by
  unfold slice at h
  split at h
  · rename_i hle
    cases h
    simp [List.length_take, List.length_drop]
    omega
  · exact absurd h (by simp)

/-- If any offset of the block loop would read past the end of the device,
`collectLoop` aborts (either at that offset or at an earlier failure). -/
lemma collectLoop_eq_none (hash : List Nat → List Nat) (device : List Nat) :
    ∀ (offs : List Nat) (st : List Nat × Nat × Nat),
      (∃ o ∈ offs, device.length < o + BLOCK_SIZE) →
      collectLoop hash device offs st = none := by
  intro offs
  induction offs with
  | nil => intro st h; simp at h
  | cons o rest ih =>
    intro st h
    rcases h with ⟨o', ho', hlt⟩
    rcases List.mem_cons.1 ho' with rfl | hmem
    · have hs : slice device o' BLOCK_SIZE = none := by
        unfold slice
        rw [if_neg]
        omega
      obtain ⟨f, ib, ie⟩ := st
      simp [collectLoop, collectStep, hs]
    · obtain ⟨f, ib, ie⟩ := st
      simp only [collectLoop]
      cases hstep : collectStep hash device (f, ib, ie) o with
      | none => rfl
      | some st' => exact ih st' ⟨o', hmem, hlt⟩

/-- If any entry of a page would be sliced past the end of the page,
`loadEntries` aborts. -/
lemma loadEntries_eq_none (block_bytes : List Nat) (block_offset : Nat) :
    ∀ (entries : List Nat) (acc : List (List Nat × Nat)),
      (∃ e ∈ entries, block_bytes.length < e + HASH_BYTES) →
      loadEntries block_bytes block_offset entries acc = none := by
  intro entries
  induction entries with
  | nil => intro acc h; simp at h
  | cons e rest ih =>
    intro acc h
    rcases h with ⟨e', he', hlt⟩
    rcases List.mem_cons.1 he' with rfl | hmem
    · have hs : slice block_bytes e' HASH_BYTES = none := by
        unfold slice
        rw [if_neg]
        omega
      simp only [loadEntries, hs]
    · simp only [loadEntries]
      cases hs : slice block_bytes e HASH_BYTES with
      | none => rfl
      | some d => exact ih _ ⟨e', hmem, hlt⟩

/-- The loader fails on every non-empty index file: the inner entry loop
`(0..BLOCK_SIZE).step_by(HASH_BYTES)` ends with the entry at byte 8180,
whose 20-byte slice `[8180..8200]` overruns the 8192-byte page (and a
file shorter than one page already fails the page slice). -/
lemma loadIndex_eq_none {index_file : List Nat} (h : index_file ≠ []) :
    loadIndex index_file = none := by
  have hpos : 0 < index_file.length := List.length_pos.2 h
  unfold loadIndex stepBy
  obtain ⟨n, hn⟩ : ∃ n, (index_file.length + BLOCK_SIZE - 1) / BLOCK_SIZE
      = n + 1 := by
    have hge : 1 ≤ (index_file.length + BLOCK_SIZE - 1) / BLOCK_SIZE := by
      simp only [BLOCK_SIZE]
      omega
    exact ⟨(index_file.length + BLOCK_SIZE - 1) / BLOCK_SIZE - 1, by omega⟩
  rw [hn, List.range'_succ]
  simp only [loadPages]
  cases hs : slice index_file 0 BLOCK_SIZE with
  | none => rfl
  | some page =>
    have hlen : page.length = BLOCK_SIZE := length_slice hs
    have hbad : loadEntries page 0 (stepBy BLOCK_SIZE HASH_BYTES) [] = none := by
      apply loadEntries_eq_none
      refine ⟨8180, ?_, by rw [hlen]; decide⟩
      unfold stepBy BLOCK_SIZE HASH_BYTES
      exact List.mem_range'.2 ⟨409, by norm_num⟩
    simp [hbad]

/-- On a 410-block device `collect` allocates a single 8192-byte index
page (`indexAllocSize = 8192`) yet tries to place entry 409 at byte 8180,
whose 20-byte write overruns the file: the block loop fails.  Stated for
an arbitrary suffix of the loop starting at entry `j` with a full-page
index file, to support the downward induction. -/
lemma collectLoop_overflow (hash : List Nat → List Nat) (device : List Nat)
    (hhash : ∀ b, (hash b).length = HASH_BYTES)
    (hdev : device.length = 410 * BLOCK_SIZE) :
    ∀ (n j : Nat) (file : List Nat), file.length = BLOCK_SIZE →
      j + n = 410 → j ≤ 409 →
      collectLoop hash device (List.range' (j * BLOCK_SIZE) n BLOCK_SIZE)
        (file, 0, j) = none := by
  intro n
  induction n with
  | zero => intro j file _ hj hle; omega
  | succ n ih =>
    intro j file hfile hj hle
    rw [List.range'_succ]
    have hslice : slice device (j * BLOCK_SIZE) BLOCK_SIZE =
        some ((device.drop (j * BLOCK_SIZE)).take BLOCK_SIZE) := by
      apply slice_eq_some
      rw [hdev]
      simp only [BLOCK_SIZE]
      omega
    by_cases hj409 : j = 409
    · subst hj409
      have hcopy : copyToSlice file (409 * HASH_BYTES) HASH_BYTES
          (hash ((device.drop (409 * BLOCK_SIZE)).take BLOCK_SIZE)) =
          none := by
        unfold copyToSlice
        rw [if_neg]
        intro hcond
        have h2 := hcond.2
        rw [hfile] at h2
        simp only [BLOCK_SIZE, HASH_BYTES] at h2
        omega
      simp [collectLoop, collectStep, hslice, hcopy]
    · have hcond : (hash ((device.drop (j * BLOCK_SIZE)).take
          BLOCK_SIZE)).length = HASH_BYTES ∧
          j * HASH_BYTES + HASH_BYTES ≤ file.length := by
        refine ⟨hhash _, ?_⟩
        rw [hfile]
        simp only [BLOCK_SIZE, HASH_BYTES]
        omega
      have hcopy : copyToSlice file (j * HASH_BYTES) HASH_BYTES
          (hash ((device.drop (j * BLOCK_SIZE)).take BLOCK_SIZE)) =
          some (file.take (j * HASH_BYTES) ++
            (hash ((device.drop (j * BLOCK_SIZE)).take BLOCK_SIZE) ++
            file.drop (j * HASH_BYTES + HASH_BYTES))) := by
        unfold copyToSlice
        rw [if_pos hcond, List.append_assoc]
      have hnew : (file.take (j * HASH_BYTES) ++
            (hash ((device.drop (j * BLOCK_SIZE)).take BLOCK_SIZE) ++
            file.drop (j * HASH_BYTES + HASH_BYTES))).length
          = BLOCK_SIZE := by
        rw [length_copyToSlice hcopy]
        exact hfile
      have hlt : ¬ (BLOCK_SIZE ≤ j + 1) := by
        simp only [BLOCK_SIZE]
        omega
      have hstep : collectStep hash device (file, 0, j) (j * BLOCK_SIZE) =
          some (file.take (j * HASH_BYTES) ++
            (hash ((device.drop (j * BLOCK_SIZE)).take BLOCK_SIZE) ++
            file.drop (j * HASH_BYTES + HASH_BYTES)),
            0, j + 1) := by
        simp [collectStep, hslice, hcopy, hlt]
      simp only [collectLoop, hstep]
      rw [show j * BLOCK_SIZE + BLOCK_SIZE = (j + 1) * BLOCK_SIZE from by
        ring]
      exact ih (j + 1) _ hnew (by omega) (by omega)

end Lemmas

/-- C1: the claim says each entry's digest lies within the allocated index
file, disjoint from every other entry, and the file holds at least
`block_count * 20` bytes.  The code violates this: for a 410-block source
device it allocates `ceil(410 / 8192) * 8192 = 8192` bytes — fewer than
`410 * 20 = 8200` — and entry 409's slot `[8180..8200)` overruns the file,
so the builder aborts (in Rust: an out-of-bounds slice panic). -/
theorem c1_index_layout_overflow :
    indexAllocSize (410 * BLOCK_SIZE) < 410 * HASH_BYTES ∧
    indexAllocSize (410 * BLOCK_SIZE) < entryOffset 409 + HASH_BYTES ∧
    ∀ (hash : List Nat → List Nat) (device : List Nat),
      (∀ b, (hash b).length = HASH_BYTES) →
      device.length = 410 * BLOCK_SIZE →
      collect hash device = none := by
  refine ⟨by decide, by decide, ?_⟩
  intro hash device hhash hdev
  unfold collect
  rw [hdev]
  have h1 : stepBy (410 * BLOCK_SIZE) BLOCK_SIZE =
      List.range' 0 410 BLOCK_SIZE := by
    unfold stepBy
    norm_num [BLOCK_SIZE]
  have h2 : indexAllocSize (410 * BLOCK_SIZE) = BLOCK_SIZE := by decide
  rw [h1, h2]
  have h3 := collectLoop_overflow hash device hhash hdev 410 0
    (List.replicate BLOCK_SIZE 0) (by simp) (by omega) (by omega)
  simpa using h3

/-- Witness for C1: the overflow is realised by the all-zero 410-block
device and a fixed-output stand-in digest function. -/
theorem c1_index_layout_overflow_witness :
    collect (fun _ => List.replicate HASH_BYTES 0)
      (List.replicate (410 * BLOCK_SIZE) 0) = none :=
  c1_index_layout_overflow.2.2 _ _ (fun _ => by simp) (by simp)

/-- C2: the claim says the loader reads each persisted entry exactly once
in ascending stored order and records source offset `i * BLOCK_SIZE` for
the entry at position `i`.  The code does neither.  Its inner loop
`(0..BLOCK_SIZE).step_by(HASH_BYTES)` ends at byte 8180, whose 20-byte
digest slice `[8180..8200)` overruns the 8192-byte page, so loading any
non-empty index file aborts (first conjunct; in Rust an out-of-bounds
slice panic).  And the offset pushed for an entry is
`block_offset + entry` — the byte position of the digest inside the index
file — not the entry position times `BLOCK_SIZE` (second conjunct). -/
theorem c2_loader_diverges :
    (∀ index_file : List Nat, index_file ≠ [] → loadIndex index_file = none)
    ∧
    ∀ (page : List Nat) (block_offset e : Nat) (acc : List (List Nat × Nat)),
      e + HASH_BYTES ≤ page.length →
      loadEntries page block_offset [e] acc =
        some (acc ++ [((page.drop e).take HASH_BYTES, block_offset + e)]) := by
  constructor
  · intro _ h
    exact loadIndex_eq_none h
  · intro page block_offset e acc he
    simp [loadEntries, slice_eq_some he]

/-- Witness for C2: a single all-zero index page makes the loader abort,
and its entry at byte 20 is recorded under offset 20, not `1 * 8192`. -/
theorem c2_loader_diverges_witness :
    loadIndex (List.replicate BLOCK_SIZE 0) = none ∧
    loadEntries (List.replicate BLOCK_SIZE 0) 0 [HASH_BYTES] [] =
      some [(((List.replicate BLOCK_SIZE 0).drop HASH_BYTES).take HASH_BYTES,
        0 + HASH_BYTES)] :=
  ⟨c2_loader_diverges.1 _ (by
      intro hnil
      have h1 := congrArg List.length hnil
      rw [List.length_replicate, List.length_nil] at h1
      simp only [BLOCK_SIZE] at h1
      omega),
   c2_loader_diverges.2 _ 0 HASH_BYTES [] (by
      rw [List.length_replicate]
      simp only [BLOCK_SIZE, HASH_BYTES]
      omega)⟩

/-- C3: the claim says `collect` followed by the loader yields exactly
`ceil(size / BLOCK_SIZE)` entries with entry `i`'s digest equal to the
digest of source block `i`.  On a one-block device `collect` succeeds —
it writes the single digest into one 8192-byte page — but the loader then
aborts on that page (the entry at byte 8180 overruns it), so the
composition yields no index at all, not one entry. -/
theorem c3_roundtrip_fails :
    ∀ (hash : List Nat → List Nat) (device : List Nat),
      (∀ b, (hash b).length = HASH_BYTES) →
      device.length = BLOCK_SIZE →
      ∃ f, collect hash device = some f ∧ loadIndex f = none := by
  intro hash device hhash hdev
  have halloc : indexAllocSize BLOCK_SIZE = BLOCK_SIZE := by decide
  have hsteps : stepBy BLOCK_SIZE BLOCK_SIZE = [0] := by decide
  refine ⟨hash device ++ (List.replicate BLOCK_SIZE 0).drop HASH_BYTES,
    ?_, ?_⟩
  · unfold collect
    rw [hdev, hsteps, halloc]
    have hslice : slice device 0 BLOCK_SIZE = some device := by
      unfold slice
      rw [if_pos (by omega)]
      rw [List.drop_zero, ← hdev, List.take_length]
    have hcopy : copyToSlice (List.replicate BLOCK_SIZE 0) 0 HASH_BYTES
        (hash device) =
        some (hash device ++ (List.replicate BLOCK_SIZE 0).drop HASH_BYTES)
        := by
      unfold copyToSlice
      rw [if_pos ⟨hhash device, by
        rw [List.length_replicate]
        simp only [BLOCK_SIZE, HASH_BYTES]
        omega⟩]
      simp
    have hlt : ¬ (BLOCK_SIZE ≤ 0 + 1) := by
      simp only [BLOCK_SIZE]
      omega
    simp [collectLoop, collectStep, hslice, hcopy, hlt]
  · apply loadIndex_eq_none
    apply List.length_pos.1
    rw [List.length_append, hhash device, List.length_drop,
      List.length_replicate]
    simp only [BLOCK_SIZE, HASH_BYTES]
    omega

/-- Witness for C3: realised on the all-zero one-block device with a
fixed-output stand-in digest function. -/
theorem c3_roundtrip_fails_witness :
    ∃ f, collect (fun _ => List.replicate HASH_BYTES 0)
        (List.replicate BLOCK_SIZE 0) = some f ∧ loadIndex f = none :=
  c3_roundtrip_fails _ _ (fun _ => by simp) (by simp)

/-- C4: the claim (and spec) say a final partial block is zero-padded to a
full `BLOCK_SIZE` window so that `ceil(size / BLOCK_SIZE)` entries are
still produced.  The code has no padding path: it always slices a full
`BLOCK_SIZE` range, so on any device whose size is not a multiple of
`BLOCK_SIZE` the slice for the last block runs past the end of the device
and the build aborts (in Rust an out-of-bounds slice panic). -/
theorem c4_partial_block_aborts :
    ∀ (hash : List Nat → List Nat) (device : List Nat),
      0 < device.length → device.length % BLOCK_SIZE ≠ 0 →
      collect hash device = none := by
  intro hash device hpos hmod
  unfold collect
  apply collectLoop_eq_none
  refine ⟨((device.length + BLOCK_SIZE - 1) / BLOCK_SIZE - 1) * BLOCK_SIZE,
    ?_, ?_⟩
  · unfold stepBy
    apply List.mem_range'.2
    refine ⟨(device.length + BLOCK_SIZE - 1) / BLOCK_SIZE - 1, ?_, by ring⟩
    simp only [BLOCK_SIZE] at *
    omega
  · simp only [BLOCK_SIZE] at *
    omega

/-- Witness for C4: a one-byte device aborts the build. -/
theorem c4_partial_block_aborts_witness :
    collect (fun _ => List.replicate HASH_BYTES 0) [0] = none :=
  c4_partial_block_aborts _ _ (by simp) (by decide)

/-- With `cache_unit_size < BLOCK_SIZE` the sub-block count
`cache_block_size / BLOCK_SIZE` is zero, so every unit is scanned with no
probes at all and produces no output: the scan completes normally. -/
lemma scanUnits_no_sub_blocks (hash : List Nat → List Nat)
    (index : List (List Nat × Nat)) (cache_device : List Nat)
    (cache_block_size : Nat) (h : cache_block_size / BLOCK_SIZE = 0) :
    ∀ (units : List Nat) (acc : List ReportLine),
      scanUnits hash index cache_device cache_block_size units acc =
        some acc := by
  intro units
  induction units with
  | nil => intro acc; rfl
  | cons u rest ih =>
    intro acc
    have hscan : unitScan hash index cache_device cache_block_size u =
        some ([], 0) := by
      unfold unitScan
      rw [h]
      rfl
    have hlines : unitLines u (cache_block_size / BLOCK_SIZE) [] 0 = [] := by
      simp [unitLines, sortVotes, renderVotes]
    simp [scanUnits, hscan, hlines, ih]

/-- C5: the claim says a `cache_unit_sectors` value whose unit size is
zero or not a positive multiple of `BLOCK_SIZE` is rejected with a
configuration error before scanning.  The code performs no validation at
all: with `cache_unit_sectors = 1` (unit size 512, not a multiple of
8192) `find` runs the whole scan and returns success with no report lines
— the integer division `512 / 8192 = 0` silently makes every unit
sub-block-free — and with `cache_unit_sectors = 0` it divides the device
size by zero (a Rust panic, modelled as `none`), which is a crash, not a
reported configuration error. -/
theorem c5_no_config_validation :
    ∀ (hash : List Nat → List Nat) (cache_device : List Nat),
      find hash [] cache_device 1 = some [] ∧
      find hash [] cache_device 0 = none := by
  intro hash cache_device
  constructor
  · show scanUnits hash [] cache_device (512 * 1)
      (List.range (cache_device.length / (512 * 1))) [] = some []
    exact scanUnits_no_sub_blocks _ _ _ _ (by decide) _ _
  · rfl

section VoteLemmas

lemma voteCount_bumpVote_self (m : List (Nat × Nat)) (k : Nat) :
    voteCount (bumpVote m k) k = voteCount m k + 1 := by
  induction m with
  | nil => simp [bumpVote, voteCount]
  | cons hd tl ih =>
    obtain ⟨k', v⟩ := hd
    by_cases h : k' = k
    · subst h
      simp [bumpVote, voteCount]
    · simp [bumpVote, voteCount, h, ih]

lemma voteCount_bumpVote_other (m : List (Nat × Nat)) (k o : Nat)
    (h : o ≠ k) : voteCount (bumpVote m k) o = voteCount m o := by
  induction m with
  | nil =>
    have h2 : ¬ (k = o) := fun he => h he.symm
    simp [bumpVote, voteCount, h2]
  | cons hd tl ih =>
    obtain ⟨k', v⟩ := hd
    by_cases h1 : k' = k
    · subst h1
      have h2 : ¬ (k' = o) := fun he => h he.symm
      simp [bumpVote, voteCount, h2]
    · by_cases h2 : k' = o
      · subst h2
        simp [bumpVote, voteCount, h1]
      · simp [bumpVote, voteCount, h1, h2, ih]

lemma totalVotes_bumpVote (m : List (Nat × Nat)) (k : Nat) :
    totalVotes (bumpVote m k) = totalVotes m + 1 := by
  induction m with
  | nil => simp [bumpVote, totalVotes]
  | cons hd tl ih =>
    obtain ⟨k', v⟩ := hd
    by_cases h : k' = k
    · subst h
      simp [bumpVote, totalVotes]
      omega
    · simp [bumpVote, totalVotes, h] at ih ⊢
      omega

end VoteLemmas

/-- C6: classification of a single Digest Index hit (lines 140-150 of the
source).  When the hit's position within its own origin unit,
`(match_offset / BLOCK_SIZE) % (cache_block_size / BLOCK_SIZE)`, differs
from the probing sub-block position `fs_block`, the fake-match counter is
incremented and no origin's vote count changes; otherwise the fake-match
counter is unchanged and exactly the vote count of origin unit
`match_offset / cache_block_size` is incremented by one. -/
theorem c6_hit_classification (cache_block_size fs_block match_offset : Nat)
    (votes : List (Nat × Nat)) (fake : Nat) :
    ((match_offset / BLOCK_SIZE) % (cache_block_size / BLOCK_SIZE) ≠ fs_block →
      (classifyHit cache_block_size fs_block (votes, fake) match_offset).2
          = fake + 1 ∧
      ∀ o, voteCount
          (classifyHit cache_block_size fs_block (votes, fake)
            match_offset).1 o = voteCount votes o) ∧
    ((match_offset / BLOCK_SIZE) % (cache_block_size / BLOCK_SIZE) = fs_block →
      (classifyHit cache_block_size fs_block (votes, fake) match_offset).2
          = fake ∧
      voteCount (classifyHit cache_block_size fs_block (votes, fake)
            match_offset).1 (match_offset / cache_block_size)
        = voteCount votes (match_offset / cache_block_size) + 1 ∧
      ∀ o, o ≠ match_offset / cache_block_size →
        voteCount (classifyHit cache_block_size fs_block (votes, fake)
            match_offset).1 o = voteCount votes o) := by
  constructor
  · intro h
    constructor
    · simp [classifyHit, h]
    · intro o
      simp [classifyHit, h]
  · intro h
    refine ⟨?_, ?_, ?_⟩
    · simp [classifyHit, h]
    · simp [classifyHit, h, voteCount_bumpVote_self]
    · intro o ho
      simp [classifyHit, h, voteCount_bumpVote_other _ _ _ ho]

/-- Witness for C6: with a two-sub-block unit, a hit at source offset
`BLOCK_SIZE` probed from sub-block position 0 has origin-local position
`1 ≠ 0`: it is counted as fake and leaves every vote count unchanged. -/
theorem c6_hit_classification_witness :
    (classifyHit (2 * BLOCK_SIZE) 0 ([], 0) BLOCK_SIZE).2 = 0 + 1 ∧
    ∀ o, voteCount (classifyHit (2 * BLOCK_SIZE) 0 ([], 0) BLOCK_SIZE).1 o =
      voteCount [] o :=
  (c6_hit_classification (2 * BLOCK_SIZE) 0 BLOCK_SIZE [] 0).1 (by decide)

section ConservationLemmas

lemma classifyHit_counts (cache_block_size fs_block match_offset : Nat)
    (st : List (Nat × Nat) × Nat) :
    (classifyHit cache_block_size fs_block st match_offset).2 +
      totalVotes (classifyHit cache_block_size fs_block st match_offset).1
      = st.2 + totalVotes st.1 + 1 := by
  by_cases h : (match_offset / BLOCK_SIZE) % (cache_block_size / BLOCK_SIZE)
      = fs_block
  · simp [classifyHit, h, totalVotes_bumpVote]
    omega
  · simp [classifyHit, h]
    omega

lemma processHits_counts (cache_block_size fs_block : Nat) :
    ∀ (hits : List Nat) (st : List (Nat × Nat) × Nat),
      (processHits cache_block_size fs_block st hits).2 +
        totalVotes (processHits cache_block_size fs_block st hits).1
        = st.2 + totalVotes st.1 + hits.length := by
  intro hits
  induction hits with
  | nil =>
    intro st
    simp [processHits]
  | cons h t ih =>
    intro st
    have h1 := ih (classifyHit cache_block_size fs_block st h)
    have h2 := classifyHit_counts cache_block_size fs_block h st
    simp only [processHits, List.foldl_cons] at h1 ⊢
    rw [h1, List.length_cons]
    omega

lemma unitScanLoop_hits (hash : List Nat → List Nat)
    (index : List (List Nat × Nat)) (cache_device : List Nat)
    (cache_block_size cache_block : Nat) :
    ∀ (ps : List Nat) (st : List (Nat × Nat) × Nat)
      (votes : List (Nat × Nat)) (fake : Nat),
      unitScanLoop hash index cache_device cache_block_size cache_block ps st
        = some (votes, fake) →
      ∃ hits, unitHitsLoop hash index cache_device cache_block_size
          cache_block ps = some hits ∧
        fake + totalVotes votes = st.2 + totalVotes st.1 + hits.length := by
  intro ps
  induction ps with
  | nil =>
    intro st votes fake h
    simp only [unitScanLoop, Option.some.injEq] at h
    refine ⟨[], rfl, ?_⟩
    subst h
    simp
  | cons p rest ih =>
    intro st votes fake h
    cases hs : slice cache_device
        (cache_block * cache_block_size + p * BLOCK_SIZE) BLOCK_SIZE with
    | none =>
      simp [unitScanLoop, hs] at h
    | some blk =>
      simp only [unitScanLoop, hs, Option.some_bind] at h
      obtain ⟨hits', h1, h2⟩ := ih _ _ _ h
      refine ⟨(bucket index (hash blk)).map (fun off => (p, off)) ++ hits',
        ?_, ?_⟩
      · simp [unitHitsLoop, hs, h1]
      · rw [h2, processHits_counts]
        simp
        omega

end ConservationLemmas

/-- C10: hit conservation.  Whenever the per-unit scan completes with vote
map `votes` and fake-match counter `fake`, the list of all hit pairs the
Digest Index returned for that unit's sub-blocks (`unitHits`) exists and
satisfies `fake + (sum of all vote counts) = number of hits`: every hit is
counted exactly once, as a fake match or as a vote, never both and never
neither. -/
theorem c10_hit_conservation (hash : List Nat → List Nat)
    (index : List (List Nat × Nat)) (cache_device : List Nat)
    (cache_block_size cache_block : Nat) (votes : List (Nat × Nat))
    (fake : Nat)
    (h : unitScan hash index cache_device cache_block_size cache_block =
      some (votes, fake)) :
    ∃ hits, unitHits hash index cache_device cache_block_size cache_block =
        some hits ∧
      fake + totalVotes votes = hits.length := by
  obtain ⟨hits, h1, h2⟩ := unitScanLoop_hits hash index cache_device
    cache_block_size cache_block _ _ _ _ h
  refine ⟨hits, h1, ?_⟩
  rw [h2]
  simp [totalVotes]

/-- Slicing a run of equal bytes yields a run of equal bytes; lets
concrete runs over block-sized devices be evaluated without materialising
8192-element lists. -/
lemma slice_replicate (N off len a : Nat) (h : off + len ≤ N) :
    slice (List.replicate N a) off len = some (List.replicate len a) := by
  unfold slice
  rw [List.length_replicate, if_pos h, List.drop_replicate,
    List.take_replicate]
  have hmin : len ⊓ (N - off) = len := Nat.min_eq_left (by omega)
  rw [hmin]

/-- Witness for C10: one unit of one sub-block whose digest matches source
offset 0 with consistent position: one hit, one vote, zero fakes. -/
theorem c10_hit_conservation_witness :
    ∃ hits, unitHits (fun _ => List.replicate HASH_BYTES 0)
        [(List.replicate HASH_BYTES 0, 0)] (List.replicate BLOCK_SIZE 0)
        BLOCK_SIZE 0 = some hits ∧
      0 + totalVotes [(0, 1)] = hits.length := by
  apply c10_hit_conservation
  unfold unitScan
  have hr : List.range (BLOCK_SIZE / BLOCK_SIZE) = [0] := by decide
  rw [hr]
  have hs : slice (List.replicate BLOCK_SIZE (0 : Nat))
      (0 * BLOCK_SIZE + 0 * BLOCK_SIZE) BLOCK_SIZE =
      some (List.replicate BLOCK_SIZE 0) :=
    slice_replicate _ _ _ _ (by simp only [BLOCK_SIZE]; omega)
  simp only [unitScanLoop, hs, Option.some_bind]
  have hb : bucket [(List.replicate HASH_BYTES (0 : Nat), 0)]
      (List.replicate HASH_BYTES 0) = [0] := by decide
  rw [hb]
  decide

lemma slice_cons_zero (x : Nat) (l : List Nat) (len : Nat)
    (h1 : 1 ≤ len) (h2 : len ≤ l.length + 1) :
    slice (x :: l) 0 len = some (x :: l.take (len - 1)) := by
  unfold slice
  rw [List.length_cons, if_pos (by omega), List.drop_zero]
  obtain ⟨m, rfl⟩ : ∃ m, len = m + 1 := ⟨len - 1, by omega⟩
  rw [List.take_succ_cons]
  simp

lemma slice_cons_pos (x : Nat) (l : List Nat) (off len : Nat)
    (h1 : 1 ≤ off) (h2 : off + len ≤ l.length + 1) :
    slice (x :: l) off len = slice l (off - 1) len := by
  unfold slice
  rw [List.length_cons, if_pos (by omega), if_pos (by omega)]
  obtain ⟨m, rfl⟩ : ∃ m, off = m + 1 := ⟨off - 1, by omega⟩
  rw [List.drop_succ_cons]
  simp

/-- C7 (amended): for a cache unit whose vote map is empty the code emits
no ranked origin line, and emits nothing at all only when the fake-match
counter is also zero; when the counter is nonzero it still prints the
`"#{count} fake matches"` line (lines 168-170 run regardless of whether
any vote line was printed). -/
theorem c7_voteless_unit_output (cache_block sub_blocks fake : Nat) :
    unitLines cache_block sub_blocks [] fake =
      if fake = 0 then [] else [ReportLine.fakes fake] := by
  simp [unitLines, sortVotes, renderVotes]

/-- Counterexample to C7 as stated: a two-sub-block cache unit whose first
sub-block's digest matches source offset `BLOCK_SIZE` (origin-local
position 1 ≠ 0, hence a fake match) and whose second sub-block matches
nothing.  The unit ends with an empty vote map and fake counter 1, yet
`find`'s report for it is the non-empty `["#1 fake matches"]`, not
silence. -/
theorem c7_voteless_unit_output_counterexample :
    unitScan
      (fun b => if b.head?.getD 0 = 1 then List.replicate HASH_BYTES 1
        else List.replicate HASH_BYTES 0)
      [(List.replicate HASH_BYTES 1, BLOCK_SIZE)]
      (1 :: List.replicate (2 * BLOCK_SIZE - 1) 0) (2 * BLOCK_SIZE) 0
      = some ([], 1) ∧
    findScan
      (fun b => if b.head?.getD 0 = 1 then List.replicate HASH_BYTES 1
        else List.replicate HASH_BYTES 0)
      [(List.replicate HASH_BYTES 1, BLOCK_SIZE)]
      (1 :: List.replicate (2 * BLOCK_SIZE - 1) 0) (2 * BLOCK_SIZE)
      = some [ReportLine.fakes 1] := by
  have hs0 : slice (1 :: List.replicate (2 * BLOCK_SIZE - 1) 0) 0 BLOCK_SIZE
      = some (1 :: List.replicate (BLOCK_SIZE - 1) 0) := by
    rw [slice_cons_zero _ _ _ (by simp [BLOCK_SIZE]) (by
      rw [List.length_replicate]
      simp only [BLOCK_SIZE]
      omega)]
    rw [List.take_replicate]
    have hmin : min (BLOCK_SIZE - 1) (2 * BLOCK_SIZE - 1) = BLOCK_SIZE - 1 :=
      Nat.min_eq_left (by simp only [BLOCK_SIZE]; omega)
    rw [hmin]
  have hs1 : slice (1 :: List.replicate (2 * BLOCK_SIZE - 1) 0) BLOCK_SIZE
      BLOCK_SIZE = some (List.replicate BLOCK_SIZE 0) := by
    rw [slice_cons_pos _ _ _ _ (by unfold BLOCK_SIZE; omega) (by
      rw [List.length_replicate]
      unfold BLOCK_SIZE
      omega)]
    rw [slice_replicate _ _ _ _ (by unfold BLOCK_SIZE; omega)]
  have hhead : (List.replicate BLOCK_SIZE (0 : Nat)).head? = some 0 := by
    rw [show BLOCK_SIZE = (BLOCK_SIZE - 1) + 1 from by
      unfold BLOCK_SIZE; omega]
    rw [List.replicate_succ]
    rfl
  have hb0 : bucket [(List.replicate HASH_BYTES 1, BLOCK_SIZE)]
      (List.replicate HASH_BYTES 1) = [BLOCK_SIZE] := by decide
  have hb1 : bucket [(List.replicate HASH_BYTES 1, BLOCK_SIZE)]
      (List.replicate HASH_BYTES 0) = [] := by decide
  have hp0 : processHits (2 * BLOCK_SIZE) 0 ([], 0) [BLOCK_SIZE] = ([], 1)
      := by decide
  have hp1 : processHits (2 * BLOCK_SIZE) 1 ([], 1) [] = ([], 1) := rfl
  have hr : List.range (2 * BLOCK_SIZE / BLOCK_SIZE) = [0, 1] := by decide
  have hscan : unitScan
      (fun b => if b.head?.getD 0 = 1 then List.replicate HASH_BYTES 1
        else List.replicate HASH_BYTES 0)
      [(List.replicate HASH_BYTES 1, BLOCK_SIZE)]
      (1 :: List.replicate (2 * BLOCK_SIZE - 1) 0) (2 * BLOCK_SIZE) 0
      = some ([], 1) := by
    unfold unitScan
    rw [hr]
    simp [unitScanLoop, hs0, hs1, hhead, hb0, hb1, hp0, hp1]
  refine ⟨hscan, ?_⟩
  unfold findScan
  rw [if_neg (by decide : ¬(2 * BLOCK_SIZE = 0))]
  have hlen : (1 :: List.replicate (2 * BLOCK_SIZE - 1) 0).length =
      2 * BLOCK_SIZE := by
    rw [List.length_cons, List.length_replicate]
    unfold BLOCK_SIZE
    omega
  rw [hlen]
  have hu : List.range (2 * BLOCK_SIZE / (2 * BLOCK_SIZE)) = [0] := by decide
  rw [hu]
  have hlines : unitLines 0 (2 * BLOCK_SIZE / BLOCK_SIZE) [] 1 =
      [ReportLine.fakes 1] := by
    simp [unitLines, sortVotes, renderVotes]
  simp only [scanUnits, hscan, List.nil_append]
  show some (unitLines 0 (2 * BLOCK_SIZE / BLOCK_SIZE) [] 1) =
    some [ReportLine.fakes 1]
  rw [hlines]

section SortLemmas

lemma sortVotes_pairwise (votes : List (Nat × Nat)) :
    List.Pairwise (fun a b : Nat × Nat => b.2 ≤ a.2) (sortVotes votes) := by
  have h := @List.sorted_mergeSort (Nat × Nat)
    (fun a b => decide (b.2 ≤ a.2))
    (fun a b c hab hbc => by
      simp only [decide_eq_true_eq] at hab hbc ⊢
      omega)
    (fun a b => by
      rcases Nat.le_total b.2 a.2 with h | h <;> simp [h])
    votes
  unfold sortVotes
  exact h.imp (fun hab => by simpa using hab)

lemma sortVotes_ne_nil {votes : List (Nat × Nat)} (h : votes ≠ []) :
    sortVotes votes ≠ [] := by
  unfold sortVotes
  intro hnil
  apply h
  have hperm := List.mergeSort_perm votes (fun a b => decide (b.2 ≤ a.2))
  rw [hnil] at hperm
  exact hperm.symm.eq_nil

lemma renderVotes_false_map (cache_block sub_blocks : Nat) :
    ∀ l, renderVotes cache_block sub_blocks l false =
      l.map (fun x => ReportLine.origin true cache_block x.1 x.2 sub_blocks)
    := by
  intro l
  induction l with
  | nil => rfl
  | cons hd tl ih =>
    obtain ⟨o, c⟩ := hd
    simp [renderVotes, ih]

end SortLemmas

/-- C8: for a unit with a non-empty vote map, the emitted lines are the
candidate origins in non-increasing vote order (stable sort by descending
count), the first line is the unmarked (`secondary = false`) primary
verdict carrying the maximal vote count, every later origin line is
marked secondary, and the printed percentage of the primary line is
`votes / sub_blocks_per_unit * 100`. -/
theorem c8_report_ranked_and_marked (cache_block sub_blocks fake : Nat)
    (votes : List (Nat × Nat)) (hne : votes ≠ []) :
    ∃ (top : Nat × Nat) (rest : List (Nat × Nat)),
      sortVotes votes = top :: rest ∧
      List.Pairwise (fun a b : Nat × Nat => b.2 ≤ a.2) (top :: rest) ∧
      (∀ x ∈ rest, x.2 ≤ top.2) ∧
      unitLines cache_block sub_blocks votes fake =
        ReportLine.origin false cache_block top.1 top.2 sub_blocks ::
          (rest.map (fun x =>
            ReportLine.origin true cache_block x.1 x.2 sub_blocks) ++
          (if fake = 0 then [] else [ReportLine.fakes fake])) ∧
      (ReportLine.origin false cache_block top.1 top.2 sub_blocks).pct =
        (top.2 : ℚ) / (sub_blocks : ℚ) * 100 := by
  cases hs : sortVotes votes with
  | nil => exact absurd hs (sortVotes_ne_nil hne)
  | cons top rest =>
    have hpw := sortVotes_pairwise votes
    rw [hs] at hpw
    refine ⟨top, rest, rfl, hpw, ?_, ?_, rfl⟩
    · exact (List.pairwise_cons.1 hpw).1
    · unfold unitLines
      rw [hs]
      obtain ⟨o, c⟩ := top
      simp [renderVotes, renderVotes_false_map]

/-- Witness for C8: two candidate origins with 9 and 3 votes; origin 7 is
ranked first and unmarked, origin 5 second and marked. -/
theorem c8_report_ranked_and_marked_witness :
    ∃ (top : Nat × Nat) (rest : List (Nat × Nat)),
      sortVotes [(5, 3), (7, 9)] = top :: rest ∧
      List.Pairwise (fun a b : Nat × Nat => b.2 ≤ a.2) (top :: rest) ∧
      (∀ x ∈ rest, x.2 ≤ top.2) ∧
      unitLines 2 4 [(5, 3), (7, 9)] 1 =
        ReportLine.origin false 2 top.1 top.2 4 ::
          (rest.map (fun x => ReportLine.origin true 2 x.1 x.2 4) ++
          (if (1 : Nat) = 0 then [] else [ReportLine.fakes 1])) ∧
      (ReportLine.origin false 2 top.1 top.2 4).pct =
        (top.2 : ℚ) / ((4 : Nat) : ℚ) * 100 :=
  c8_report_ranked_and_marked 2 4 1 [(5, 3), (7, 9)] (by decide)

section TruncationLemmas

lemma slice_take (d : List Nat) (N off len : Nat) (h1 : off + len ≤ N)
    (h2 : N ≤ d.length) :
    slice (d.take N) off len = slice d off len := by
  unfold slice
  rw [List.length_take]
  have hmin2 : min N d.length = N := Nat.min_eq_left h2
  rw [hmin2, if_pos (by omega), if_pos (by omega)]
  congr 1
  rw [List.drop_take, List.take_take]
  have hmin : len ⊓ (N - off) = len := Nat.min_eq_left (by omega)
  rw [hmin]

lemma unitScanLoop_take (hash : List Nat → List Nat)
    (index : List (List Nat × Nat)) (d : List Nat)
    (cache_block_size cache_block N : Nat) (hN : N ≤ d.length) :
    ∀ (ps : List Nat) (st : List (Nat × Nat) × Nat),
      (∀ p ∈ ps,
        cache_block * cache_block_size + p * BLOCK_SIZE + BLOCK_SIZE ≤ N) →
      unitScanLoop hash index (d.take N) cache_block_size cache_block ps st
        = unitScanLoop hash index d cache_block_size cache_block ps st := by
  intro ps
  induction ps with
  | nil => intro st h; rfl
  | cons p rest ih =>
    intro st h
    have hp := h p (List.mem_cons_self _ _)
    simp only [unitScanLoop]
    rw [slice_take d N _ BLOCK_SIZE (by omega) hN]
    cases hv : slice d
        (cache_block * cache_block_size + p * BLOCK_SIZE) BLOCK_SIZE with
    | none => rfl
    | some blk =>
      exact ih _ (fun q hq => h q (List.mem_cons_of_mem _ hq))

lemma scanUnits_take (hash : List Nat → List Nat)
    (index : List (List Nat × Nat)) (d : List Nat)
    (cache_block_size N : Nat) (hN : N ≤ d.length) :
    ∀ (units : List Nat) (acc : List ReportLine),
      (∀ cb ∈ units, cb * cache_block_size + cache_block_size ≤ N) →
      scanUnits hash index (d.take N) cache_block_size units acc =
        scanUnits hash index d cache_block_size units acc := by
  intro units
  induction units with
  | nil => intro acc h; rfl
  | cons cb rest ih =>
    intro acc h
    have hcb := h cb (List.mem_cons_self _ _)
    have hunit : unitScan hash index (d.take N) cache_block_size cb =
        unitScan hash index d cache_block_size cb := by
      unfold unitScan
      apply unitScanLoop_take hash index d cache_block_size cb N hN
      intro p hp
      have hplt : p < cache_block_size / BLOCK_SIZE := List.mem_range.1 hp
      have h1 : (p + 1) * BLOCK_SIZE ≤
          (cache_block_size / BLOCK_SIZE) * BLOCK_SIZE :=
        Nat.mul_le_mul_right _ hplt
      have h2 : (cache_block_size / BLOCK_SIZE) * BLOCK_SIZE ≤
          cache_block_size := Nat.div_mul_le_self _ _
      have h3 : p * BLOCK_SIZE + BLOCK_SIZE = (p + 1) * BLOCK_SIZE := by ring
      omega
    simp only [scanUnits]
    rw [hunit]
    cases hv : unitScan hash index d cache_block_size cb with
    | none => rfl
    | some vf =>
      obtain ⟨votes, fake⟩ := vf
      exact ih _ (fun c hc => h c (List.mem_cons_of_mem _ hc))

end TruncationLemmas

/-- C9: the Match Finder examines exactly
`floor(size / cache_unit_size)` whole Cache Units — its unit loop runs
over `0 .. cache_device.size() / cache_block_size` — and never reads the
trailing remainder: truncating the cache device to
`(size / cache_unit_size) * cache_unit_size` bytes changes nothing about
the scan's outcome. -/
theorem c9_whole_units_only (hash : List Nat → List Nat)
    (index : List (List Nat × Nat)) (cache_device : List Nat)
    (cache_block_size : Nat) :
    findScan hash index cache_device cache_block_size =
      findScan hash index
        (cache_device.take
          (cache_device.length / cache_block_size * cache_block_size))
        cache_block_size := by
  by_cases h0 : cache_block_size = 0
  · subst h0
    simp [findScan]
  · unfold findScan
    rw [if_neg h0, if_neg h0]
    have hN : cache_device.length / cache_block_size * cache_block_size ≤
        cache_device.length := Nat.div_mul_le_self _ _
    have hlen2 : (cache_device.take (cache_device.length / cache_block_size
        * cache_block_size)).length =
        cache_device.length / cache_block_size * cache_block_size := by
      rw [List.length_take]
      exact Nat.min_eq_left hN
    rw [hlen2]
    have hdiv : cache_device.length / cache_block_size * cache_block_size /
        cache_block_size = cache_device.length / cache_block_size :=
      Nat.mul_div_cancel _ (Nat.pos_of_ne_zero h0)
    rw [hdiv]
    symm
    apply scanUnits_take hash index cache_device cache_block_size _ hN
    intro cb hcb
    have hlt : cb < cache_device.length / cache_block_size :=
      List.mem_range.1 hcb
    have hmul : (cb + 1) * cache_block_size ≤
        cache_device.length / cache_block_size * cache_block_size :=
      Nat.mul_le_mul_right _ hlt
    rw [show cb * cache_block_size + cache_block_size =
      (cb + 1) * cache_block_size from by ring]
    exact hmul

end CacheGuess
